import Mathlib

/-!
Verification development for the qubership-backup-daemon-go repository.

The Go sources relevant to the retention-policy engine, the vault/storage
repository, the job ledger and the backup orchestrator are shallowly embedded
as Lean definitions below.  Pure Go functions become Lean functions; all
filesystem, database, S3 and process effects are threaded explicitly (a
filesystem oracle record, a list of ledger rows, effect logs in result
records).  Machine integers (Go int / int64) are modelled as Int, with an
explicit two-complement wrap where overflow can occur.  Go interface values
stored in Rule.Second keep their dynamic type tag, because the evaluator
performs a dynamic type assertion on them.
-/

/-- Split a character list on a separator character; like Go strings.Split,
the empty input yields one empty field and separators at the ends yield
empty fields. -/
def splitChar (sep : Char) : List Char → List (List Char)
  | [] => [[]]
  | c :: rest =>
    if c = sep then [] :: splitChar sep rest
    else
      match splitChar sep rest with
      | [] => [[c]]
      | h :: t => (c :: h) :: t

/-- Go strings.Split for the single-character separators the daemon uses. -/
def goSplit (s : String) (sep : Char) : List String :=
  (splitChar sep s.toList).map String.mk

/-- Drop the characters satisfying p from both ends of a list. -/
def dropAround (p : Char → Bool) (l : List Char) : List Char :=
  ((l.dropWhile p).reverse.dropWhile p).reverse

/-- Go strings.TrimSpace (modelled for ASCII whitespace). -/
def trimSpace (s : String) : String :=
  String.mk (dropAround Char.isWhitespace s.toList)

/-- Go strings.Trim: drop every leading and trailing character in cutset. -/
def goTrimChars (s : String) (cutset : List Char) : String :=
  String.mk (dropAround (fun c => cutset.contains c) s.toList)

/-- Go strings.TrimLeft. -/
def goTrimLeft (s : String) (cutset : List Char) : String :=
  String.mk (s.toList.dropWhile (fun c => cutset.contains c))

/-- Go strings.HasSuffix. -/
def strEndsWith (s suf : String) : Bool := suf.toList.isSuffixOf s.toList

/-- Drop the last n characters of a string. -/
def strDropRight (s : String) (n : Nat) : String :=
  String.mk (s.toList.take (s.toList.length - n))

/-- Join strings with a separator between consecutive elements. -/
def joinWith (sep : String) : List String → String
  | [] => ""
  | h :: t => t.foldl (fun acc s => acc ++ sep ++ s) h

/-- Go path/filepath Join of two clean, dot-free path segments (the only
shapes the daemon ever joins); Join of an empty segment returns the other. -/
def pathJoin (a b : String) : String :=
  if a = "" then b else if b = "" then a else a ++ "/" ++ b

/-- Go filepath.Base for the clean paths used in the daemon: the last
slash-separated non-empty component, "/" for the root, "." for empty. -/
def basename (p : String) : String :=
  match ((goSplit p '/').filter (fun c => c ≠ "")).getLast? with
  | some c => c
  | none =>
    match p.toList with
    | '/' :: _ => "/"
    | _ => "."

/-- A non-empty all-ASCII-digit string, i.e. a full match of the Go regular
expression anchored digits pattern. -/
def isDigits (s : String) : Bool :=
  !s.toList.isEmpty && s.toList.all (fun c => c.isDigit)

/-- Go strconv.Atoi on an all-digit string: the numeric value, or failure
when it exceeds the largest 64-bit signed integer (ErrRange). -/
def digitsVal (cs : List Char) : Nat :=
  cs.foldl (fun acc c => acc * 10 + (c.toNat - 48)) 0

def goAtoi (s : String) : Option Int :=
  if isDigits s then
    if digitsVal s.toList ≤ 9223372036854775807 then some (Int.ofNat (digitsVal s.toList))
    else none
  else none

/-- Two-complement wrap of an unbounded integer into the int64 range,
modelling Go int / int64 overflow on arithmetic. -/
def wrap64 (n : Int) : Int := (n + 2 ^ 63) % 2 ^ 64 - 2 ^ 63

/-- RuleType from the rule parser: the Go constants LimitType and
IntervalType. -/
inductive RuleType where
  | limitType
  | intervalType
deriving DecidableEq, Repr

/-- A Go interface value together with its dynamic type, as stored in
Rule.Second: either a string, a Go int, or a Go int64.  The distinction
matters because BackupDaemon.evict performs the type assertion
r.Second.(int64) on it. -/
inductive GoDyn where
  | goString (s : String)
  | goInt (n : Int)
  | goInt64 (n : Int)
deriving DecidableEq, Repr

/-- One parsed retention rule (struct Rule in the Go source).  The field
named Type in Go is called rtype here because Type is reserved in Lean. -/
structure Rule where
  rtype : RuleType
  First : Int
  Second : GoDyn
deriving DecidableEq, Repr

/-- The magnifiers unit table: seconds per unit. -/
def magnifiers (unit : String) : Int :=
  if unit = "min" then 60
  else if unit = "h" then 3600
  else if unit = "d" then 86400
  else if unit = "m" then 2592000
  else if unit = "y" then 31104000
  else 0

/-- Decompose spec as digits followed by one unit of the interval regular
expression digits-then-unit pattern; the unit set is min, h, d, m, y.  The
decomposition is unique because no unit ends in another unit's last
character. -/
def unitSuffix (spec : String) : Option (String × String) :=
  if strEndsWith spec "min" then some (strDropRight spec 3, "min")
  else if strEndsWith spec "h" then some (strDropRight spec 1, "h")
  else if strEndsWith spec "d" then some (strDropRight spec 1, "d")
  else if strEndsWith spec "m" then some (strDropRight spec 1, "m")
  else if strEndsWith spec "y" then some (strDropRight spec 1, "y")
  else none

/-- parseSpec from the rule parser, translated clause by clause: the literal
0 yields (0, LimitType); any other bare digit string yields its value with
IntervalType; digits followed by a unit yield value times magnifier (with
int overflow wrap) and IntervalType; everything else is an error. -/
def parseSpec (spec : String) : Except String (Int × RuleType) :=
  if spec = "0" then .ok (0, .limitType)
  else if isDigits spec then
    match goAtoi spec with
    | none => .error ("invalid rule format: " ++ spec)
    | some n => .ok (n, .intervalType)
  else
    match unitSuffix spec with
    | some (digits, unit) =>
      if isDigits digits then
        match goAtoi digits with
        | none => .error ("invalid rule format: " ++ spec)
        | some n => .ok (wrap64 (n * magnifiers unit), .intervalType)
      else .error ("invalid spec: " ++ spec)
    | none => .error ("invalid spec: " ++ spec)

/-- NewRule: split the trimmed clause on the slash into exactly two parts;
parse the left side for the value and the rule type; the right side is
either the literal delete string or a parsed spec whose value is stored as
a Go int (its RuleType is discarded). -/
def NewRule (rule : String) : Except String Rule :=
  match goSplit (trimSpace rule) '/' with
  | [p0, p1] =>
    match parseSpec p0 with
    | .error e => .error e
    | .ok (first, t1) =>
      if p1 = "delete" then .ok ⟨t1, first, .goString "delete"⟩
      else
        match parseSpec p1 with
        | .error e => .error e
        | .ok (s, _) => .ok ⟨t1, first, .goInt s⟩
  | _ => .error ("invalid rule format: " ++ rule)

/-- parseRules: split the policy on commas and parse every clause, failing
on the first bad clause. -/
def parseRules (rules : String) : Except String (List Rule) :=
  (goSplit rules ',').mapM NewRule

/-- entity.Vault.  The Metrics map field of the Go struct is omitted: no
embedded code path ever assigns it (it stays nil). -/
structure Vault where
  Folder : String := ""
  TimeStamp : Int := 0
  MetricsFilePath : String := ""
  CustomVarsFilePath : String := ""
  IsEvictable : Bool := false
  IsSharded : Bool := false
  External : Bool := false
  IsFailed : Bool := false
  IsLocked : Bool := false
  Canceled : Bool := false
  IsGranular : Bool := false
deriving DecidableEq, Repr

/-- The zero value entity.Vault, the well-defined no-such-vault result. -/
def zeroVault : Vault := {}

/-- The timestamps of a vault list. -/
def tsList (l : List Vault) : List Int := l.map (fun v => v.TimeStamp)

/-- Descending-by-timestamp order used by the sort.Slice calls whose less
function compares timestamps with the greater-than operator. -/
def vaultGE (a b : Vault) : Prop := b.TimeStamp ≤ a.TimeStamp

instance : DecidableRel vaultGE :=
  fun a b => inferInstanceAs (Decidable (b.TimeStamp ≤ a.TimeStamp))

instance : IsTotal Vault vaultGE := ⟨fun a b => le_total b.TimeStamp a.TimeStamp⟩

instance : IsTrans Vault vaultGE := ⟨fun _ _ _ hab hbc => le_trans hbc hab⟩

/-- Ascending-by-timestamp order used by StorageRepo.List and by the bucket
decimation inside the interval branch of BackupDaemon.evict. -/
def vaultLE (a b : Vault) : Prop := a.TimeStamp ≤ b.TimeStamp

instance : DecidableRel vaultLE :=
  fun a b => inferInstanceAs (Decidable (a.TimeStamp ≤ b.TimeStamp))

instance : IsTotal Vault vaultLE := ⟨fun a b => le_total a.TimeStamp b.TimeStamp⟩

instance : IsTrans Vault vaultLE := ⟨fun _ _ _ hab hbc => le_trans hab hbc⟩

/-- Model of sort.Slice with a descending timestamp comparison.  sort.Slice
is unstable, so any timestamp-sorted permutation is a faithful model; a
deterministic insertion sort is used. -/
def sortDescByTS (l : List Vault) : List Vault := List.insertionSort vaultGE l

/-- Model of sort.Slice with an ascending timestamp comparison. -/
def sortAscByTS (l : List Vault) : List Vault := List.insertionSort vaultLE l

/-- The accumulator pass of uniqueVaults: seen is the set of timestamps
already emitted (the Go map), preserving first occurrences in order. -/
def uniqueVaultsAux (seen : List Int) : List Vault → List Vault
  | [] => []
  | v :: rest =>
    if v.TimeStamp ∈ seen then uniqueVaultsAux seen rest
    else v :: uniqueVaultsAux (v.TimeStamp :: seen) rest

/-- uniqueVaults from the controller: keep the first vault of every
timestamp, in input order. -/
def uniqueVaults (arr : List Vault) : List Vault := uniqueVaultsAux [] arr

/-- The error produced by the failing dynamic type assertion
r.Second.(int64) in the interval branch: Rule.Second always stores a Go
int, never an int64, so the assertion panics at run time. -/
def errIntervalAssert : String :=
  "panic: interface conversion: interface is int, not int64"

/-- The run-time panic of Go integer division by zero. -/
def errDivByZero : String := "panic: runtime error: integer divide by zero"

/-- Append v to the group of key k, creating the group at the end on first
sight (deterministic stand-in for the Go map; the claims proved below do
not depend on group iteration order). -/
def groupInsert (groups : List (Int × List Vault)) (k : Int) (v : Vault) :
    List (Int × List Vault) :=
  match groups with
  | [] => [(k, [v])]
  | (k', vs) :: rest =>
    if k' = k then (k', vs ++ [v]) :: rest else (k', vs) :: groupInsert rest k v

/-- One iteration of the rule loop in the interval branch of
BackupDaemon.evict: filter the candidates at or before the cutoff and not
excluded; a delete rule marks them all; otherwise the int64 type assertion
on Second is evaluated (panicking on the Go int the parser stored), and on
a genuine int64 the candidates are bucketed by truncated division of the
Thursday-shifted timestamp and every bucket keeps only its newest vault. -/
def intervalStep (items : List Vault) (exclude : Int → Bool) (now : Int)
    (acc : List Vault) (r : Rule) : Except String (List Vault) :=
  let operate := items.filter
    (fun x => decide (x.TimeStamp ≤ wrap64 (now - r.First)) && !exclude x.TimeStamp)
  if r.Second = .goString "delete" then .ok (acc ++ operate)
  else
    match r.Second with
    | .goInt64 iv =>
      if iv = 0 then .error errDivByZero
      else
        let thursday : Int := 4 * 24 * 60 * 60
        let groups := operate.foldl
          (fun gs x => groupInsert gs (Int.tdiv (x.TimeStamp - thursday) iv) x) []
        .ok (acc ++ groups.flatMap (fun g => (sortAscByTS g.2).dropLast))
    | _ => .error errIntervalAssert

/-- The Go panic for a negative slice lower bound, reachable in the limit
branch only for a hand-made negative count. -/
def errSliceBounds : String := "panic: runtime error: slice bounds out of range"

/-- BackupDaemon.evict after rule parsing: sort the items descending; the
first rule's type picks the mode.  Limit mode deduplicates by timestamp,
sorts descending again and drops the newest First entries, ignoring the
exclusion set and the remaining rules.  Interval mode folds intervalStep
over every rule and deduplicates the accumulated eviction list. -/
def evictRules (parsedRules : List Rule) (items0 : List Vault)
    (exclude : Int → Bool) (now : Int) : Except String (List Vault) :=
  let items := sortDescByTS items0
  match parsedRules with
  | [] => .error errSliceBounds
  | rule :: _ =>
    match rule.rtype with
    | .limitType =>
      let limit := rule.First
      let unique := sortDescByTS (uniqueVaults items)
      if limit < (unique.length : Int) then
        if limit < 0 then .error errSliceBounds
        else .ok (unique.drop limit.toNat)
      else .ok []
    | .intervalType =>
      match parsedRules.foldlM (intervalStep items exclude now) [] with
      | .error e => .error e
      | .ok ev => .ok (uniqueVaults ev)

/-- BackupDaemon.evict: parse the policy text (failing the whole evaluation
on a parse error) and evaluate the rules; now stands for time.Now().Unix(). -/
def evict (items : List Vault) (rules : String) (exclude : Int → Bool)
    (now : Int) : Except String (List Vault) :=
  match parseRules rules with
  | .error e => .error ("failed to parse rules err: " ++ e)
  | .ok parsedRules => evictRules parsedRules items exclude now

/-- The vault list of an evaluation result, empty on error. -/
def resOf (e : Except String (List Vault)) : List Vault := e.toOption.getD []

/-- The Go constant GRANULAR. -/
def GRANULAR : String := "granular"

/-- The Go constant FULL. -/
def FULL : String := "full"

/-- The Go constant ALL. -/
def ALL : String := "all"

/-- The Go constant SHARDED. -/
def SHARDED : String := "sharded"

/-- The StorageRepo fields that the embedded methods read.  createTime is
kept abstract: it derives a millisecond timestamp from the trailing token
of a folder name, falling back to the current time, and no claim proved
here depends on its value. -/
structure StorageEnv where
  root : String
  granularFolder : String
  externalRoot : String
  skipLockCheck : Bool := false
  createTime : String → Int

/-- The filesystem and console-file oracle: which paths exist, the entries
of a readable directory (none models the does-not-exist error), and the
content of a readable file. -/
structure FS where
  pathExists : String → Bool
  readDir : String → Option (List String) := fun _ => none
  fileContent : String → Option String := fun _ => none

/-- Go strings.Contains on character lists: some suffix starts with the
pattern. -/
def listHasInfix (pat l : List Char) : Bool :=
  l.tails.any (fun t => pat.isPrefixOf t)

/-- StorageRepo.isGranular: the folder's base name contains the granular
marker string as a substring. -/
def isGranularName (folder : String) : Bool :=
  listHasInfix GRANULAR.toList (basename folder).toList

/-- StorageRepo.isLocked: a .lock marker exists in the folder. -/
def isLocked (fs : FS) (folder : String) : Bool :=
  fs.pathExists (pathJoin folder ".lock")

/-- The makeVault closure of StorageRepo.GetVault. -/
def mkVaultFrom (env : StorageEnv) (fs : FS) (vaultName folder : String) : Vault :=
  { Folder := folder
    TimeStamp := env.createTime vaultName
    MetricsFilePath := folder ++ "/.metrics"
    CustomVarsFilePath := folder ++ "/.custom_vars"
    IsEvictable := true
    IsSharded := false
    External := false
    IsLocked := isLocked fs folder
    IsGranular := isGranularName folder }

/-- StorageRepo.GetVault, translated branch by branch: blank names yield the
zero Vault; non-external resolution tries root/blobPath/name when a blob
path is given, else root/name and then the granular fallback
granularFolder/name (forcing the granular flag); external resolution uses
externalRoot/vaultPath/name; any folder that fails the existence check
(unless skipped) yields the zero Vault. -/
def GetVault (env : StorageEnv) (fs : FS) (vaultName : String) (external : Bool)
    (vaultPath blobPath : String) (skipFSCheck : Bool) : Vault :=
  if trimSpace vaultName = "" then zeroVault
  else if !external then
    if trimSpace blobPath ≠ "" then
      let folder := pathJoin (pathJoin env.root blobPath) vaultName
      if skipFSCheck || fs.pathExists folder then mkVaultFrom env fs vaultName folder
      else zeroVault
    else
      let folder := pathJoin env.root vaultName
      if skipFSCheck || fs.pathExists folder then mkVaultFrom env fs vaultName folder
      else
        let granularFolderPath := pathJoin env.granularFolder vaultName
        if fs.pathExists granularFolderPath then
          { mkVaultFrom env fs vaultName granularFolderPath with IsGranular := true }
        else zeroVault
  else
    if vaultName.length > 0 && vaultPath.length > 0 then
      let externalFolder := pathJoin (pathJoin env.externalRoot vaultPath) vaultName
      if skipFSCheck || fs.pathExists externalFolder then
        { mkVaultFrom env fs vaultName externalFolder with External := true }
      else zeroVault
    else zeroVault

/-- True when the vault-dirname regular expression (eight digits, a T of
either case, four to six digits, unanchored) matches at the head of the
character list; an unanchored match exists exactly when at least four
digits follow the T. -/
def vaultTokenAt (cs : List Char) : Bool :=
  let d8 := cs.take 8
  d8.length = 8 && d8.all (fun c => c.isDigit) &&
    match cs.drop 8 with
    | c :: rest =>
      (c = 'T' || c = 't') && (rest.take 4).length = 4 &&
        (rest.take 4).all (fun c => c.isDigit)
    | [] => false

/-- MatchString of the vaultDirnameMatcher regular expression: some suffix
of the string starts with the date-shaped token. -/
def vaultDirnameMatch (s : String) : Bool := s.toList.tails.any vaultTokenAt

/-- Go strings.Replace with count 1 on character lists. -/
def replaceFirstAux (pat rep : List Char) : List Char → List Char
  | [] => []
  | c :: rest =>
    if pat.isPrefixOf (c :: rest) then rep ++ (c :: rest).drop pat.length
    else c :: replaceFirstAux pat rep rest

/-- Go strings.Replace(s, pat, rep, 1). -/
def replaceFirst (s pat rep : String) : String :=
  String.mk (replaceFirstAux pat.toList rep.toList s.toList)

/-- The directory-entry gathering phase of StorageRepo.List: resolve the
storage root (externalRoot/storagePath, or root when the subpath is empty);
fail when it does not exist; gather granular-subtree entries (as
granular/name, tolerating a missing granular directory) for the granular
and all kinds, and root entries for the full and all kinds. -/
def listDirs (env : StorageEnv) (fs : FS) (typeOfBackup storagePath : String) :
    Except String (List String) :=
  let storageRootPath :=
    if storagePath.length = 0 then env.root else pathJoin env.externalRoot storagePath
  if !fs.pathExists storageRootPath then .error "no vaults found"
  else
    match
      (if typeOfBackup = GRANULAR || typeOfBackup = ALL then
        match fs.readDir (pathJoin storageRootPath GRANULAR) with
        | none => some []
        | some files => some (files.map (fun f => pathJoin GRANULAR f))
      else some []) with
    | none => .error "failed to read dir"
    | some granDirs =>
      match
        (if typeOfBackup = FULL || typeOfBackup = ALL then fs.readDir storageRootPath
        else some []) with
      | none => .error "failed to read dir"
      | some fullDirs => .ok (granDirs ++ fullDirs)

/-- The vault-construction phase of StorageRepo.List: keep entries whose
last underscore token matches the date-shaped pattern and resolve each
through GetVault with the existence check skipped; keep only sharded vaults
for the sharded kind; drop locked vaults unless lock checking is disabled;
sort ascending by timestamp. -/
def vaultsFromDirs (env : StorageEnv) (fs : FS) (typeOfBackup storagePath : String)
    (dirs : List String) : List Vault :=
  let vaults := dirs.filterMap (fun dir =>
    let trimmed := replaceFirst dir (GRANULAR ++ "/") ""
    let parts := goSplit trimmed '_'
    let lastPart := parts.getLastD ""
    if vaultDirnameMatch lastPart then
      some (GetVault env fs dir false storagePath "" true)
    else none)
  let vaults :=
    if typeOfBackup = SHARDED then
      vaults.filter (fun v => fs.pathExists (pathJoin v.Folder ".sharded"))
    else vaults
  let vaults :=
    if !env.skipLockCheck then
      vaults.filter (fun v => !fs.pathExists (pathJoin v.Folder ".lock"))
    else vaults
  sortAscByTS vaults

/-- StorageRepo.List: the composition of the two phases. -/
def ListVaults (env : StorageEnv) (fs : FS) (typeOfBackup storagePath : String) :
    Except String (List Vault) :=
  match listDirs env fs typeOfBackup storagePath with
  | .error e => .error e
  | .ok dirs => .ok (vaultsFromDirs env fs typeOfBackup storagePath dirs)

/-- entity.Job: one row of the jobs table.  The Go field named Type is
called jtype here. -/
structure Job where
  TaskID : String := ""
  jtype : String := ""
  Status : String := ""
  Vault : String := ""
  Err : String := ""
  StorageName : String := ""
  BlobPath : String := ""
  Databases : String := ""
deriving DecidableEq, Repr

/-- DBRepo.UpdateJob: the SQL upsert keyed by task_id.  A fresh row is
inserted verbatim; an existing row takes every new column value except that
databases falls back to the stored value when the new value is the empty
string, via COALESCE of NULLIF(excluded.databases, '') with the stored
column. -/
def jobsUpsert (rows : List Job) (job : Job) : List Job :=
  if rows.any (fun r => r.TaskID = job.TaskID) then
    rows.map (fun r =>
      if r.TaskID = job.TaskID then
        { job with Databases := if job.Databases = "" then r.Databases else job.Databases }
      else r)
  else rows ++ [job]

/-- DBRepo.SelectEverything: the first row with the given task_id, or the
not-found error. -/
def jobsSelect (rows : List Job) (taskID : String) : Except String Job :=
  match rows.find? (fun r => r.TaskID = taskID) with
  | some j => .ok j
  | none => .error ("no job found with task_id " ++ taskID)

/-- DBRepo.RemoveVault: delete every row whose vault column equals the
name; zero affected rows yield the no-vaults-found error. -/
def jobsRemoveVault (rows : List Job) (vault : String) : Except String (List Job) :=
  let remaining := rows.filter (fun r => r.Vault ≠ vault)
  if remaining.length = rows.length then .error "no vaults found"
  else .ok remaining

/-- The normalizeBlobPath closure inside BackupDaemon.RemoveBackupV2: trim
space, trim surrounding quote characters, trim leading slashes. -/
def normBlobPathV2 (p : String) : String :=
  goTrimLeft (goTrimChars (trimSpace p) ['"', '\'']) ['/']

/-- The blob prefix RemoveBackupV2 settles on: the normalized request blob
path with surrounding slashes trimmed, falling back to the stored job's
blob path when empty. -/
def v2Blob (reqBlob jobBlob : String) : String :=
  let b := goTrimChars (normBlobPathV2 reqBlob) ['/']
  if b = "" then goTrimChars (normBlobPathV2 jobBlob) ['/'] else b

/-- The observable outcome of RemoveBackupV2: the returned error if any,
the final ledger rows, and the side effects that were performed before
returning (remote prefixes deleted, local folders deleted, evict commands
run). -/
structure V2Result where
  err : Option String
  jobs : List Job
  s3Deleted : List String
  evictedFolders : List String
  evictCmdRuns : List String
deriving DecidableEq, Repr

/-- BackupDaemon.RemoveBackupV2, translated statement by statement: require
a non-blank vault name; select the ledger row by task id (failing when
absent); resolve the blob prefix; when remote storage is enabled and a blob
prefix resolves, delete the remote prefix FIRST (before any lock check);
resolve the vault (existence-checked); a resolvable locked vault aborts
with the lock error; a resolvable unlocked vault has its folder deleted and
the evict command run (both errors ignored); finally the ledger rows keyed
by the vault name are removed.  s3DeleteOk tells whether DeletePrefix
succeeds for a given prefix. -/
def RemoveBackupV2 (env : StorageEnv) (fs : FS) (s3Enable : Bool)
    (s3DeleteOk : String → Bool) (rows : List Job) (reqVault reqBlob : String) :
    V2Result :=
  let backupID := trimSpace reqVault
  if backupID = "" then ⟨some "vault is required", rows, [], [], []⟩
  else
    match jobsSelect rows backupID with
    | .error e => ⟨some ("failed to select job: " ++ e), rows, [], [], []⟩
    | .ok job =>
      let blob := v2Blob reqBlob job.BlobPath
      let doS3 := s3Enable && blob ≠ ""
      let pfx := pathJoin blob backupID
      if doS3 && !s3DeleteOk pfx then
        ⟨some "failed to delete from s3", rows, [], [], []⟩
      else
        let s3Del := if doS3 then [pfx] else []
        let vaultObj := GetVault env fs backupID false "" blob false
        if vaultObj ≠ zeroVault then
          if vaultObj.IsLocked then
            ⟨some ("backup vault " ++ backupID ++ " is locked"), rows, s3Del, [], []⟩
          else
            match jobsRemoveVault rows backupID with
            | .error _ =>
              ⟨some "failed to remove backup from database", rows, s3Del,
                [vaultObj.Folder], [vaultObj.Folder]⟩
            | .ok rows2 => ⟨none, rows2, s3Del, [vaultObj.Folder], [vaultObj.Folder]⟩
        else
          match jobsRemoveVault rows backupID with
          | .error _ =>
            ⟨some "failed to remove backup from database", rows, s3Del, [], []⟩
          | .ok rows2 => ⟨none, rows2, s3Del, [], []⟩

/-- The lines a bufio.Scanner with the line splitter produces for a file
content: newline-separated tokens, with no empty final token when the
content ends in a newline, and no token at all for empty content. -/
def scanLines (content : String) : List String :=
  if content = "" then []
  else
    let ls := goSplit content '\n'
    if strEndsWith content "\n" then ls.dropLast else ls

/-- BackupDaemon.tailConsole: read folder/.console and join its last num
lines with single spaces; a file that cannot be opened yields the empty
string together with the error. -/
def tailConsole (fileContent : String → Option String) (folder : String)
    (num : Nat) : String × Option String :=
  match fileContent (pathJoin folder ".console") with
  | none => ("", some "open console failed")
  | some content =>
    let lines := scanLines content
    let n := min num lines.length
    (joinWith " " (lines.drop (lines.length - n)), none)

/-- The Go constant INCREMENTAL. -/
def INCREMENTAL : String := "incremental"

/-- The Go constant COMMONBACKUP. -/
def COMMONBACKUP : String := "backup"

/-- The Go constant INCREMENTALBACKUP. -/
def INCREMENTALBACKUP : String := "incremental backup"

/-- getBackupAction from the controller. -/
def getBackupAction (procType : String) : String :=
  if procType = INCREMENTAL then INCREMENTALBACKUP else COMMONBACKUP

/-- entity.DBEntry restricted to the field EnqueueBackup reads; the Object
map is consumed only by the command executor, which is an oracle here. -/
structure DBEntry where
  SimpleName : String := ""
deriving DecidableEq, Repr

/-- A Go map of string to string as an association list whose lookup
returns the zero value for a missing key. -/
def mapGet (m : List (String × String)) (k : String) : String :=
  (m.lookup k).getD ""

/-- Assignment into a Go string map. -/
def mapSet (m : List (String × String)) (k v : String) : List (String × String) :=
  (k, v) :: m.filter (fun p => p.1 ≠ k)

/-- entity.BackupRequest restricted to the fields EnqueueBackup reads.  The
Go field named Prefix is called Pfx here. -/
structure BackupRequest where
  DBs : List DBEntry := []
  AllowEviction : Bool := false
  ExternalBackupPath : String := ""
  Sharded : Bool := false
  Pfx : String := ""
  CustomVars : List (String × String) := []
  ProcType : String := ""

/-- Model of json.Marshal for a list of database-name strings that need no
escaping; always a non-empty string because it starts with a bracket. -/
def jsonStringArray (l : List String) : String :=
  "[" ++ joinWith "," (l.map (fun s => "\"" ++ s ++ "\"")) ++ "]"

/-- Descending lexicographic order for the sort.Slice call on the listed
timestamps/names. -/
def strGE (a b : String) : Prop := ¬ a < b

instance : DecidableRel strGE := fun a b => inferInstanceAs (Decidable (¬ a < b))

/-- The repository oracles EnqueueBackup calls: StorageRepository's
ListVaultNames and OpenVault; an error value stands for the repository
call's failure. -/
structure StorageOps where
  listVaultNames : Bool → String → String → Except String (List String)
  openVault : String → Bool → Bool → Bool → Bool → String → String → String → Vault

/-- The command-executor oracle: PerformBackup returns some error text on a
failed backup command, none on success. -/
structure ExecOps where
  performBackup : Vault → List DBEntry → List (String × String) → Option String

/-- The transfer-engine oracle: the outcome of UploadFolder (no prefix) or
UploadFolderWithPrefix (with a prefix) on a vault folder. -/
structure S3Ops where
  uploadOutcome : String → Option String → Option String

/-- The directory class computed at the top of EnqueueBackup. -/
def enqueueDirType (request : BackupRequest) : String :=
  if request.DBs.length = 0 && request.ExternalBackupPath.length = 0 then GRANULAR
  else FULL

/-- The prior-vault listing of EnqueueBackup: only incremental requests
list; an external path selects the non-timestamp listing of the computed
directory class, otherwise all vault timestamps are listed. -/
def enqueueCommonTS (st : StorageOps) (request : BackupRequest) :
    Except String (List String) :=
  if request.ProcType = INCREMENTAL then
    if request.ExternalBackupPath.length = 0 then
      match st.listVaultNames true ALL "" with
      | .error e => .error ("failed to list all backup err: " ++ e)
      | .ok l => .ok l
    else
      match st.listVaultNames false (enqueueDirType request) "" with
      | .error e => .error ("failed to list " ++ enqueueDirType request ++ " backup err: " ++ e)
      | .ok l => .ok l
  else .ok []

/-- The custom variables after EnqueueBackup seeds start_ts with the newest
listed timestamp (descending sort, first element), when any were listed. -/
def enqueueCustomVars (request : BackupRequest) (commonTS : List String) :
    List (String × String) :=
  match List.insertionSort strGE commonTS with
  | [] => request.CustomVars
  | t :: _ => mapSet request.CustomVars "start_ts" t

/-- The vault EnqueueBackup opens: with a non-empty normalized blob path the
vault is opened under the blob path with an empty name; otherwise under the
external path (if any). -/
def enqueueVault (st : StorageOps) (request : BackupRequest) : Vault :=
  let isGranular := decide (request.DBs.length > 0)
  let isExternal := decide (request.ExternalBackupPath.length > 0)
  let blobPath := goTrimLeft (trimSpace (mapGet request.CustomVars "blob_path")) ['/']
  if blobPath ≠ "" then
    st.openVault "" request.AllowEviction isGranular request.Sharded false "" request.Pfx blobPath
  else
    st.openVault request.ExternalBackupPath request.AllowEviction isGranular
      request.Sharded isExternal request.ExternalBackupPath request.Pfx ""

/-- The Queued job record EnqueueBackup stores before running the backup
command: task id and vault are the folder's base name, databases are the
JSON-encoded simple names. -/
def enqueueJob0 (st : StorageOps) (request : BackupRequest) : Job :=
  let vault := enqueueVault st request
  let backupID := basename vault.Folder
  let dbNames := request.DBs.filterMap
    (fun d => if d.SimpleName ≠ "" then some d.SimpleName else none)
  { TaskID := backupID
    jtype := getBackupAction request.ProcType
    Status := "Queued"
    Vault := backupID
    Err := ""
    StorageName := mapGet request.CustomVars "storageName"
    BlobPath := mapGet request.CustomVars "blob_path"
    Databases := jsonStringArray dbNames }

/-- The observable outcome of EnqueueBackup: the response backup id, the
returned error, the final ledger rows, and the uploads attempted as pairs
of folder and prefix (empty prefix for the plain upload). -/
structure BackupOutcome where
  backupID : Option String
  err : Option String
  jobs : List Job
  uploads : List (String × String)
deriving DecidableEq, Repr

/-- BackupDaemon.EnqueueBackup, translated statement by statement: list
prior timestamps for incremental requests (failing on a listing error),
seed start_ts, open the vault, record the Queued job, run the backup
command; on command failure record the job as Failed with the last five
console lines and return the command's own error without touching remote
storage; on success and enabled remote storage upload the folder (under
blobPath/backupID when a blob path is present), failing on upload errors
while leaving the job record as it is; finally mark the job Successful. -/
def EnqueueBackup (st : StorageOps) (ex : ExecOps) (s3 : S3Ops) (s3Enable : Bool)
    (fs : FS) (rows : List Job) (request : BackupRequest) : BackupOutcome :=
  match enqueueCommonTS st request with
  | .error e => ⟨none, some e, rows, []⟩
  | .ok commonTS =>
    let request1 := { request with CustomVars := enqueueCustomVars request commonTS }
    let vault := enqueueVault st request1
    let backupID := basename vault.Folder
    let job0 := enqueueJob0 st request1
    let rows1 := jobsUpsert rows job0
    match ex.performBackup vault request1.DBs request1.CustomVars with
    | some e =>
      let tail := (tailConsole fs.fileContent vault.Folder 5).1
      ⟨none, some e, jobsUpsert rows1 { job0 with Status := "Failed", Err := tail }, []⟩
    | none =>
      if s3Enable then
        let blobPath2 := goTrimChars (trimSpace (mapGet request1.CustomVars "blob_path")) ['/']
        if blobPath2 ≠ "" then
          let pfx := pathJoin blobPath2 backupID
          match s3.uploadOutcome vault.Folder (some pfx) with
          | some e =>
            ⟨none, some ("failed to upload folder to s3 err: " ++ e), rows1,
              [(vault.Folder, pfx)]⟩
          | none =>
            ⟨some backupID, none,
              jobsUpsert rows1 { job0 with Status := "Successful" },
              [(vault.Folder, pfx)]⟩
        else
          match s3.uploadOutcome vault.Folder none with
          | some e =>
            ⟨none, some ("failed to upload folder to s3 err: " ++ e), rows1,
              [(vault.Folder, "")]⟩
          | none =>
            ⟨some backupID, none,
              jobsUpsert rows1 { job0 with Status := "Successful" },
              [(vault.Folder, "")]⟩
      else
        ⟨some backupID, none,
          jobsUpsert rows1 { job0 with Status := "Successful" }, []⟩

lemma find?_map_pres (p q : Job → Bool) (f : Job → Job)
    (hpq : ∀ r, q (f r) = p r) :
    ∀ (rows : List Job) (old : Job), rows.find? p = some old →
      (rows.map f).find? q = some (f old) := by
  intro rows
  induction rows with
  | nil => intro old h; simp at h
  | cons r rs ih =>
    intro old h
    cases hp : p r with
    | true =>
      rw [List.find?_cons_of_pos _ hp] at h
      cases h
      rw [List.map_cons, List.find?_cons_of_pos]
      rw [hpq]; exact hp
    | false =>
      rw [List.find?_cons_of_neg _ (by simp [hp])] at h
      rw [List.map_cons, List.find?_cons_of_neg]
      · exact ih old h
      · simp [hpq, hp]

lemma jobsUpsert_of_found (rows : List Job) (job old : Job)
    (h : rows.find? (fun r => r.TaskID = job.TaskID) = some old) :
    jobsSelect (jobsUpsert rows job) job.TaskID =
      .ok { job with
        Databases := if job.Databases = "" then old.Databases else job.Databases } := by
  have hmem := List.mem_of_find?_eq_some h
  have hpr := List.find?_some h
  have hany : rows.any (fun r => r.TaskID = job.TaskID) = true :=
    List.any_eq_true.2 ⟨old, hmem, hpr⟩
  unfold jobsUpsert
  rw [if_pos hany]
  unfold jobsSelect
  rw [find?_map_pres (fun r => r.TaskID = job.TaskID) (fun r => r.TaskID = job.TaskID)
    _ ?_ rows old h]
  · simp only [decide_eq_true_eq] at hpr
    simp [hpr]
  · intro r
    by_cases hr : r.TaskID = job.TaskID <;> simp [hr]

lemma find?_append_of_none (p : Job → Bool) (l2 : List Job) :
    ∀ rows : List Job, rows.find? p = none → (rows ++ l2).find? p = l2.find? p := by
  intro rows
  induction rows with
  | nil => intro _; simp
  | cons r rs ih =>
    intro h
    rw [List.find?_cons] at h
    cases hr : p r with
    | true => rw [hr] at h; simp at h
    | false =>
      rw [hr] at h
      rw [List.cons_append, List.find?_cons, hr]
      exact ih h

lemma jobsSelect_jobsUpsert (rows : List Job) (job : Job) (h : job.Databases ≠ "") :
    jobsSelect (jobsUpsert rows job) job.TaskID = .ok job := by
  cases hf : rows.find? (fun r => r.TaskID = job.TaskID) with
  | some old =>
    have := jobsUpsert_of_found rows job old hf
    rw [if_neg h] at this
    simpa using this
  | none =>
    have hany : rows.any (fun r => r.TaskID = job.TaskID) = false := by
      rw [Bool.eq_false_iff]
      intro hc
      obtain ⟨x, hx, hpx⟩ := List.any_eq_true.1 hc
      exact List.find?_eq_none.1 hf x hx hpx
    unfold jobsUpsert
    rw [if_neg (by simp [hany])]
    unfold jobsSelect
    rw [find?_append_of_none _ _ rows hf, List.find?_cons_of_pos _ (by simp)]

/-- C1: the claim states that a bare non-zero integer yields a Limit-type
rule counting vaults while the literal 0 or a number-with-unit yields an
Interval-type rule.  The code returns the two Rule types swapped: parseSpec
classifies the bare non-zero integer 5 as IntervalType and the literal 0 as
LimitType (its reLimit regular expression branch returns IntervalType),
so policy clause 5/delete becomes an age-five-seconds interval rule instead
of a keep-five-newest limit rule.  Only the number-with-unit part of the
claim matches the code. -/
theorem c1_parseSpec_type_swap :
    parseSpec "5" = .ok (5, .intervalType) ∧
    parseSpec "0" = .ok (0, .limitType) ∧
    parseSpec "2h" = .ok (7200, .intervalType) ∧
    NewRule "5/delete" = .ok ⟨.intervalType, 5, .goString "delete"⟩ ∧
    NewRule "0/delete" = .ok ⟨.limitType, 0, .goString "delete"⟩ := by
  refine ⟨?_, ?_, ?_, ?_, ?_⟩ <;> rfl

/-- C4: the claim describes bucket decimation for interval rules whose
secondary parameter is a width.  The code stores the parsed width as a Go
int but asserts it to int64 inside evict, so every evaluation of a policy
containing a width rule panics before any bucketing happens: here the
parsed policy 1h/1d makes evict fail with the interface-conversion panic
for any vault list, marking nothing obsolete. -/
theorem c4_bucket_rule_panics :
    parseRules "1h/1d" = .ok [⟨.intervalType, 3600, .goInt 86400⟩] ∧
    evict [] "1h/1d" (fun _ => false) 0 = .error errIntervalAssert ∧
    evict [{ Folder := "v", TimeStamp := 100 }] "1h/1d" (fun _ => false) 1000000 =
      .error errIntervalAssert := by
  refine ⟨?_, ?_, ?_⟩ <;> rfl

/-- C10: evaluating retention with the empty policy string always fails:
splitting the empty string yields a single empty clause, the empty clause
fails NewRule, and evict propagates the parse error, marking no vault
obsolete. -/
theorem c10_empty_policy :
    ∀ (items : List Vault) (exclude : Int → Bool) (now : Int),
      evict items "" exclude now =
        .error "failed to parse rules err: invalid rule format: " ∧
      parseRules "" = .error "invalid rule format: " := by
  intro items exclude now
  exact ⟨rfl, rfl⟩

/-- C5: upserting a job whose databases field is empty over an existing row
keeps the stored databases value (the COALESCE of the NULLIF expression) and
takes the new value of every other field; a subsequent read by task id
returns exactly that merged row. -/
theorem c5_upsert_preserves_databases (rows : List Job) (old job : Job)
    (hfound : rows.find? (fun r => r.TaskID = job.TaskID) = some old)
    (_hold : old.Databases ≠ "")
    (hempty : job.Databases = "") :
    jobsSelect (jobsUpsert rows job) job.TaskID =
      .ok { job with Databases := old.Databases } := by
  have h := jobsUpsert_of_found rows job old hfound
  rw [hempty] at h
  simpa using h

/-- Witness for C5 at a concrete ledger. -/
theorem c5_witness :
    jobsSelect
      (jobsUpsert [{ TaskID := "t1", Status := "Queued", Databases := "[\"db1\"]" }]
        { TaskID := "t1", Status := "Failed", Databases := "" }) "t1" =
      .ok { TaskID := "t1", Status := "Failed", Databases := "[\"db1\"]" } :=
  c5_upsert_preserves_databases
    [{ TaskID := "t1", Status := "Queued", Databases := "[\"db1\"]" }]
    { TaskID := "t1", Status := "Queued", Databases := "[\"db1\"]" }
    { TaskID := "t1", Status := "Failed", Databases := "" }
    (by rfl) (by decide) rfl

/-- C8: GetVault returns the zero Vault for a blank (empty or
whitespace-only) name, and whenever the existence check is not skipped any
non-zero result's folder actually exists, so a non-blank name that resolves
to no existing folder yields the zero Vault. -/
theorem c8_getvault_blank_or_missing (env : StorageEnv) (fs : FS)
    (name : String) (external : Bool) (vaultPath blobPath : String) (skip : Bool) :
    (trimSpace name = "" →
      GetVault env fs name external vaultPath blobPath skip = zeroVault) ∧
    (GetVault env fs name external vaultPath blobPath false ≠ zeroVault →
      fs.pathExists (GetVault env fs name external vaultPath blobPath false).Folder = true) := by
  constructor
  · intro h
    simp [GetVault, h]
  · intro hne
    unfold GetVault at hne ⊢
    by_cases h0 : trimSpace name = ""
    · simp [h0] at hne
    · simp only [h0, if_false, if_neg h0] at hne ⊢
      cases hx : external with
      | false =>
        simp only [hx, Bool.not_false, if_true, if_pos trivial] at hne ⊢
        by_cases hbp : trimSpace blobPath ≠ ""
        · simp only [if_pos hbp] at hne ⊢
          by_cases he : fs.pathExists (pathJoin (pathJoin env.root blobPath) name)
          · simp [he, mkVaultFrom]
          · simp [he] at hne
        · simp only [if_neg hbp] at hne ⊢
          by_cases he : fs.pathExists (pathJoin env.root name)
          · simp [he, mkVaultFrom]
          · simp only [he, Bool.false_or, Bool.or_false, if_false] at hne ⊢
            by_cases hg : fs.pathExists (pathJoin env.granularFolder name)
            · simp [hg, he, mkVaultFrom]
            · simp [hg, he] at hne
      | true =>
        simp only [hx, Bool.not_true, if_false] at hne ⊢
        by_cases hvp : name.length > 0 && vaultPath.length > 0
        · simp only [hvp, if_pos, if_true] at hne ⊢
          by_cases he : fs.pathExists (pathJoin (pathJoin env.externalRoot vaultPath) name)
          · simp [he, mkVaultFrom]
          · simp [he] at hne
        · simp [hvp] at hne

/-- A concrete storage environment for witnesses. -/
def sampleEnv : StorageEnv :=
  { root := "/backup-storage"
    granularFolder := "/backup-storage/granular"
    externalRoot := "/external"
    createTime := fun _ => 0 }

/-- A concrete filesystem with one existing full vault v1. -/
def sampleFS : FS :=
  { pathExists := fun p => p = "/backup-storage" || p = "/backup-storage/v1" }

/-- Witness for C8: a whitespace name resolves to the zero Vault, and the
folder of the non-zero resolution of v1 exists. -/
theorem c8_witness :
    GetVault sampleEnv sampleFS " " false "" "" false = zeroVault ∧
    sampleFS.pathExists (GetVault sampleEnv sampleFS "v1" false "" "" false).Folder = true :=
  ⟨(c8_getvault_blank_or_missing sampleEnv sampleFS " " false "" "" false).1 rfl,
   (c8_getvault_blank_or_missing sampleEnv sampleFS "v1" false "" "" false).2 (by decide)⟩

lemma getvault_skip_granular (env : StorageEnv) (fs : FS) (name sp : String) :
    (GetVault env fs name false sp "" true).IsGranular =
      isGranularName (GetVault env fs name false sp "" true).Folder := by
  unfold GetVault
  by_cases h0 : trimSpace name = ""
  · simp only [if_pos h0]
    decide
  · have h2 : trimSpace "" = "" := rfl
    simp [h0, h2, mkVaultFrom]

lemma mem_of_ite_filter {α} {p : α → Bool} {l : List α} {c : Prop} [Decidable c]
    {v : α} (h : v ∈ (if c then l.filter p else l)) : v ∈ l := by
  split at h
  · exact (List.mem_filter.1 h).1
  · exact h

/-- A filesystem whose granular subtree holds one vault whose name does not
contain the granular marker. -/
def c9FS : FS :=
  { pathExists := fun p => p = "/backup-storage"
    readDir := fun p =>
      if p = "/backup-storage/granular" then some ["v_20240101T000000"]
      else if p = "/backup-storage" then some [] else none }

/-- The vault that listing c9FS produces. -/
def c9Vault : Vault :=
  { Folder := "/backup-storage/granular/v_20240101T000000"
    TimeStamp := 0
    MetricsFilePath := "/backup-storage/granular/v_20240101T000000/.metrics"
    CustomVarsFilePath := "/backup-storage/granular/v_20240101T000000/.custom_vars"
    IsEvictable := true }

/-- C9 counterexample: listing the granular kind yields a vault residing
under the granular subtree (its folder is granularFolder/name) whose
granular flag is false, because StorageRepo.List resolves entries through
GetVault with the blob path empty and the existence check skipped, where
only the basename-contains-marker check runs; the claimed
resides-under-the-granular-subtree disjunct does not hold. -/
theorem c9_counterexample :
    ListVaults sampleEnv c9FS GRANULAR "" = .ok [c9Vault] ∧
    pathJoin sampleEnv.granularFolder "v_20240101T000000" = c9Vault.Folder ∧
    c9Vault.IsGranular = false := by
  refine ⟨?_, ?_, ?_⟩ <;> rfl

/-- C9 amended: a vault produced by listing carries the granular flag
exactly when its folder's base name contains the granular marker (its
location is not consulted); a vault produced by resolution additionally has
the flag forced on by the granular-subtree fallback branch (non-external,
blank blob path, name absent at the root but present under the granular
folder). -/
theorem c9_amended :
    (∀ (env : StorageEnv) (fs : FS) (ty sp : String) (res : List Vault),
      ListVaults env fs ty sp = .ok res →
      ∀ v ∈ res, v.IsGranular = isGranularName v.Folder) ∧
    (∀ (env : StorageEnv) (fs : FS) (name vp bp : String),
      trimSpace name ≠ "" → trimSpace bp = "" →
      fs.pathExists (pathJoin env.root name) = false →
      fs.pathExists (pathJoin env.granularFolder name) = true →
      (GetVault env fs name false vp bp false).IsGranular = true) := by
  constructor
  · intro env fs ty sp res hres v hv
    unfold ListVaults at hres
    split at hres
    · simp at hres
    · rw [Except.ok.injEq] at hres
      subst hres
      unfold vaultsFromDirs at hv
      have hvX := (List.perm_insertionSort vaultLE _).mem_iff.1 hv
      have hvY := mem_of_ite_filter hvX
      have hvZ := mem_of_ite_filter hvY
      obtain ⟨dir, _, hfv⟩ := List.mem_filterMap.1 hvZ
      dsimp only at hfv
      split at hfv
      · rw [Option.some.injEq] at hfv
        subst hfv
        exact getvault_skip_granular env fs dir sp
      · simp at hfv
  · intro env fs name vp bp h0 hbp hroot hgran
    unfold GetVault
    simp [h0, hbp, hroot, hgran, mkVaultFrom]

/-- A filesystem holding only the granular-subtree folder of g1. -/
def c9GranFS : FS := { pathExists := fun p => p = "/backup-storage/granular/g1" }

/-- Witness for the amended C9 at the concrete listing and at the concrete
granular-fallback resolution. -/
theorem c9_witness :
    c9Vault.IsGranular = isGranularName c9Vault.Folder ∧
    (GetVault sampleEnv c9GranFS "g1" false "" "" false).IsGranular = true :=
  ⟨c9_amended.1 sampleEnv c9FS GRANULAR "" [c9Vault] (by rfl) c9Vault (by decide),
   c9_amended.2 sampleEnv c9GranFS "g1" "" "" (by decide) rfl (by decide) (by decide)⟩

/-- The ledger rows used by the C6 scenarios: one job whose task id and
vault name are v1 with stored blob path bp. -/
def c6rows : List Job :=
  [{ TaskID := "v1", jtype := "backup", Status := "Successful", Vault := "v1",
     BlobPath := "bp", Databases := "[]" }]

/-- A filesystem where the v1 vault folder exists under the blob path and
is locked. -/
def c6LockedFS : FS :=
  { pathExists := fun p =>
      p = "/backup-storage/bp/v1" || p = "/backup-storage/bp/v1/.lock" }

/-- C6 counterexample: with remote storage enabled and a resolvable blob
path, RemoveBackupV2 on a locked existing vault does return the lock error
and deletes neither the local folder nor the ledger row, but it has already
deleted the remote prefix bp/v1 before the lock check, contradicting the
claimed performs-no-deletion-of-any-kind. -/
theorem c6_counterexample :
    (RemoveBackupV2 sampleEnv c6LockedFS true (fun _ => true) c6rows "v1" "").err =
      some "backup vault v1 is locked" ∧
    (RemoveBackupV2 sampleEnv c6LockedFS true (fun _ => true) c6rows "v1" "").s3Deleted =
      ["bp/v1"] ∧
    (RemoveBackupV2 sampleEnv c6LockedFS true (fun _ => true) c6rows "v1" "").evictedFolders = [] ∧
    (RemoveBackupV2 sampleEnv c6LockedFS true (fun _ => true) c6rows "v1" "").jobs = c6rows := by
  refine ⟨?_, ?_, ?_, ?_⟩ <;> rfl

lemma jobsRemoveVault_of_any (rows : List Job) (v : String)
    (h : rows.any (fun r => r.Vault = v) = true) :
    jobsRemoveVault rows v = .ok (rows.filter (fun r => r.Vault ≠ v)) := by
  unfold jobsRemoveVault
  rw [if_neg]
  intro hlen
  obtain ⟨x, hx, hpx⟩ := List.any_eq_true.1 h
  have hlt : (rows.filter (fun r => decide (r.Vault ≠ v))).length < rows.length := by
    refine List.length_filter_lt_length_iff_exists.2 ⟨x, hx, ?_⟩
    simp only [decide_eq_true_eq] at hpx ⊢
    simp [hpx]
  omega

/-- C6 amended: assuming the ledger row for the trimmed vault name exists
and the remote-prefix deletion (when attempted) succeeds: when the vault
resolves to no existing local folder, RemoveBackupV2 still removes the
ledger rows keyed by the vault name and returns no error while deleting no
local folder; when the vault resolves and is locked, it returns the
conflict error and deletes neither the local folder nor any ledger row,
though the remote prefix may already have been deleted before the lock
check. -/
theorem c6_amended (env : StorageEnv) (fs : FS) (s3Enable : Bool)
    (s3DeleteOk : String → Bool) (rows : List Job) (reqVault reqBlob : String)
    (job : Job)
    (hid : trimSpace reqVault ≠ "")
    (hsel : jobsSelect rows (trimSpace reqVault) = .ok job)
    (hs3 : s3Enable = false ∨ v2Blob reqBlob job.BlobPath = "" ∨
      s3DeleteOk (pathJoin (v2Blob reqBlob job.BlobPath) (trimSpace reqVault)) = true) :
    (GetVault env fs (trimSpace reqVault) false "" (v2Blob reqBlob job.BlobPath) false =
        zeroVault →
      rows.any (fun r => r.Vault = trimSpace reqVault) = true →
      (RemoveBackupV2 env fs s3Enable s3DeleteOk rows reqVault reqBlob).err = none ∧
      (RemoveBackupV2 env fs s3Enable s3DeleteOk rows reqVault reqBlob).jobs =
        rows.filter (fun r => r.Vault ≠ trimSpace reqVault) ∧
      (RemoveBackupV2 env fs s3Enable s3DeleteOk rows reqVault reqBlob).evictedFolders = []) ∧
    ((GetVault env fs (trimSpace reqVault) false "" (v2Blob reqBlob job.BlobPath) false ≠
        zeroVault) →
      (GetVault env fs (trimSpace reqVault) false "" (v2Blob reqBlob job.BlobPath) false).IsLocked =
        true →
      (RemoveBackupV2 env fs s3Enable s3DeleteOk rows reqVault reqBlob).err =
        some ("backup vault " ++ trimSpace reqVault ++ " is locked") ∧
      (RemoveBackupV2 env fs s3Enable s3DeleteOk rows reqVault reqBlob).jobs = rows ∧
      (RemoveBackupV2 env fs s3Enable s3DeleteOk rows reqVault reqBlob).evictedFolders = []) := by
  have hguard : (s3Enable && v2Blob reqBlob job.BlobPath ≠ "" &&
      !s3DeleteOk (pathJoin (v2Blob reqBlob job.BlobPath) (trimSpace reqVault))) = false := by
    rcases hs3 with h | h | h <;> simp [h]
  constructor
  · intro hzero hany
    unfold RemoveBackupV2
    rw [if_neg hid, hsel]
    simp only [hguard, Bool.false_eq_true, if_false, if_neg]
    rw [if_neg (by simp [hzero]), jobsRemoveVault_of_any rows _ hany]
    exact ⟨rfl, rfl, rfl⟩
  · intro hnz hlock
    unfold RemoveBackupV2
    rw [if_neg hid, hsel]
    simp only [hguard, Bool.false_eq_true, if_false, if_neg]
    rw [if_pos (by simpa using hnz), if_pos (by simpa using hlock)]
    exact ⟨rfl, rfl, rfl⟩

/-- A filesystem with no paths at all. -/
def c6EmptyFS : FS := { pathExists := fun _ => false }

/-- Witness for the amended C6: on a vault name with a ledger row but no
local folder, the row is removed and no error is returned. -/
theorem c6_witness :
    (RemoveBackupV2 sampleEnv c6EmptyFS false (fun _ => true) c6rows "v1" "").err = none ∧
    (RemoveBackupV2 sampleEnv c6EmptyFS false (fun _ => true) c6rows "v1" "").jobs =
      c6rows.filter (fun r => r.Vault ≠ trimSpace "v1") ∧
    (RemoveBackupV2 sampleEnv c6EmptyFS false (fun _ => true) c6rows "v1" "").evictedFolders =
      [] :=
  (c6_amended sampleEnv c6EmptyFS false (fun _ => true) c6rows "v1" ""
    { TaskID := "v1", jtype := "backup", Status := "Successful", Vault := "v1",
      BlobPath := "bp", Databases := "[]" }
    (by decide) (by rfl) (Or.inl rfl)).1 (by rfl) (by rfl)

lemma jsonStringArray_ne_empty (l : List String) : jsonStringArray l ≠ "" := by
  unfold jsonStringArray
  intro h
  have h2 := congrArg String.data h
  simp [String.data_append] at h2

/-- C7: when the backup command fails, EnqueueBackup records the job as
Failed with the last five console lines (joined by spaces) as the error
text, returns the command's own error, reports no backup id, and attempts
no remote-storage upload. -/
theorem c7_backup_failure (st : StorageOps) (ex : ExecOps) (s3 : S3Ops)
    (s3Enable : Bool) (fs : FS) (rows : List Job) (request : BackupRequest)
    (commonTS : List String) (e console : String)
    (hts : enqueueCommonTS st request = .ok commonTS)
    (hfail : ex.performBackup
      (enqueueVault st { request with CustomVars := enqueueCustomVars request commonTS })
      request.DBs (enqueueCustomVars request commonTS) = some e)
    (hconsole : fs.fileContent
      (pathJoin
        (enqueueVault st
          { request with CustomVars := enqueueCustomVars request commonTS }).Folder
        ".console") = some console) :
    (EnqueueBackup st ex s3 s3Enable fs rows request).err = some e ∧
    (EnqueueBackup st ex s3 s3Enable fs rows request).uploads = [] ∧
    (EnqueueBackup st ex s3 s3Enable fs rows request).backupID = none ∧
    jobsSelect (EnqueueBackup st ex s3 s3Enable fs rows request).jobs
      (enqueueJob0 st
        { request with CustomVars := enqueueCustomVars request commonTS }).TaskID =
      .ok { enqueueJob0 st
              { request with CustomVars := enqueueCustomVars request commonTS } with
            Status := "Failed"
            Err := joinWith " "
              ((scanLines console).drop
                ((scanLines console).length - min 5 (scanLines console).length)) } := by
  have htail : tailConsole fs.fileContent
      (enqueueVault st
        { request with CustomVars := enqueueCustomVars request commonTS }).Folder 5 =
      (joinWith " "
        ((scanLines console).drop
          ((scanLines console).length - min 5 (scanLines console).length)), none) := by
    unfold tailConsole
    rw [hconsole]
  unfold EnqueueBackup
  rw [hts]
  dsimp only
  rw [hfail, htail]
  refine ⟨rfl, rfl, rfl, ?_⟩
  exact jobsSelect_jobsUpsert _ _ (jsonStringArray_ne_empty _)

/-- A storage oracle whose opened vault is a fixed folder. -/
def c7Storage : StorageOps :=
  { listVaultNames := fun _ _ _ => .ok []
    openVault := fun _ _ _ _ _ _ _ _ =>
      { Folder := "/backup-storage/20240101T000000", TimeStamp := 0 } }

/-- An executor whose backup command always fails with exit status 1. -/
def c7Exec : ExecOps := { performBackup := fun _ _ _ => some "exit status 1" }

/-- A transfer oracle that always succeeds (never reached in the witness). -/
def c7S3 : S3Ops := { uploadOutcome := fun _ _ => none }

/-- A filesystem holding a two-line console log for the opened vault. -/
def c7FS : FS :=
  { pathExists := fun _ => false
    fileContent := fun p =>
      if p = "/backup-storage/20240101T000000/.console" then some "line1\nline2\n"
      else none }

/-- Witness for C7 at a concrete failing backup. -/
theorem c7_witness :
    (EnqueueBackup c7Storage c7Exec c7S3 true c7FS [] {}).err = some "exit status 1" ∧
    (EnqueueBackup c7Storage c7Exec c7S3 true c7FS [] {}).uploads = [] ∧
    (EnqueueBackup c7Storage c7Exec c7S3 true c7FS [] {}).backupID = none ∧
    jobsSelect (EnqueueBackup c7Storage c7Exec c7S3 true c7FS [] {}).jobs
      (enqueueJob0 c7Storage { ({} : BackupRequest) with
        CustomVars := enqueueCustomVars {} [] }).TaskID =
      .ok { enqueueJob0 c7Storage { ({} : BackupRequest) with
              CustomVars := enqueueCustomVars {} [] } with
            Status := "Failed"
            Err := joinWith " "
              ((scanLines "line1\nline2\n").drop
                ((scanLines "line1\nline2\n").length -
                  min 5 (scanLines "line1\nline2\n").length)) } :=
  c7_backup_failure c7Storage c7Exec c7S3 true c7FS [] {} [] "exit status 1"
    "line1\nline2\n" rfl rfl rfl

lemma tsList_cons (v : Vault) (l : List Vault) :
    tsList (v :: l) = v.TimeStamp :: tsList l := rfl

lemma mem_tsList {t : Int} {l : List Vault} :
    t ∈ tsList l ↔ ∃ v ∈ l, v.TimeStamp = t := by
  simp [tsList]

lemma tsList_uniqueVaultsAux (t : Int) :
    ∀ (l : List Vault) (seen : List Int),
      t ∈ tsList (uniqueVaultsAux seen l) ↔ t ∈ tsList l ∧ t ∉ seen := by
  intro l
  induction l with
  | nil => intro seen; simp [uniqueVaultsAux, tsList]
  | cons v rest ih =>
    intro seen
    by_cases hv : v.TimeStamp ∈ seen
    · rw [show uniqueVaultsAux seen (v :: rest) = uniqueVaultsAux seen rest from by
        simp [uniqueVaultsAux, hv]]
      rw [ih seen, tsList_cons]
      constructor
      · rintro ⟨h1, h2⟩; exact ⟨List.mem_cons_of_mem _ h1, h2⟩
      · rintro ⟨h1, h2⟩
        rcases List.mem_cons.1 h1 with rfl | h1
        · exact absurd hv h2
        · exact ⟨h1, h2⟩
    · rw [show uniqueVaultsAux seen (v :: rest) =
          v :: uniqueVaultsAux (v.TimeStamp :: seen) rest from by
        simp [uniqueVaultsAux, hv]]
      rw [tsList_cons, tsList_cons]
      simp only [List.mem_cons, ih]
      constructor
      · rintro (rfl | ⟨h1, h2⟩)
        · exact ⟨Or.inl rfl, hv⟩
        · simp only [List.mem_cons, not_or] at h2
          exact ⟨Or.inr h1, h2.2⟩
      · rintro ⟨rfl | h1, h2⟩
        · exact Or.inl rfl
        · by_cases ht : t = v.TimeStamp
          · exact Or.inl ht
          · exact Or.inr ⟨h1, by simp [List.mem_cons, ht, h2]⟩

lemma tsList_uniqueVaults (t : Int) (l : List Vault) :
    t ∈ tsList (uniqueVaults l) ↔ t ∈ tsList l := by
  rw [uniqueVaults, tsList_uniqueVaultsAux]
  simp

lemma tsList_sortDesc (t : Int) (l : List Vault) :
    t ∈ tsList (sortDescByTS l) ↔ t ∈ tsList l := by
  unfold sortDescByTS tsList
  exact List.Perm.mem_iff ((List.perm_insertionSort vaultGE l).map _)

lemma intervalFold_all_delete (items : List Vault) (exclude : Int → Bool) (now : Int) :
    ∀ (rl : List Rule) (acc : List Vault),
      (∀ r ∈ rl, r.Second = .goString "delete") →
      List.foldlM (intervalStep items exclude now) acc rl =
        .ok (acc ++ rl.flatMap (fun r => items.filter
          (fun x => decide (x.TimeStamp ≤ wrap64 (now - r.First)) &&
            !exclude x.TimeStamp))) := by
  intro rl
  induction rl with
  | nil => intro acc _; simp; rfl
  | cons r rest ih =>
    intro acc hdel
    rw [List.foldlM_cons]
    have hstep : intervalStep items exclude now acc r =
        .ok (acc ++ items.filter
          (fun x => decide (x.TimeStamp ≤ wrap64 (now - r.First)) &&
            !exclude x.TimeStamp)) := by
      unfold intervalStep
      rw [if_pos (hdel r (List.mem_cons_self r rest))]
    rw [hstep]
    show List.foldlM (intervalStep items exclude now) _ rest = _
    rw [ih _ (fun r' hr' => hdel r' (List.mem_cons_of_mem _ hr'))]
    simp [List.flatMap_cons, List.append_assoc]

/-- C2: for an interval-mode policy all of whose rules carry the delete
secondary parameter (the only interval policies the evaluator completes:
any bucket rule panics on the int64 assertion), evict succeeds, never
returns a vault with an excluded timestamp, and returns exactly the
timestamps of input vaults at or before some rule's cutoff now minus
rule.First that are not excluded. -/
theorem c2_interval_delete (items : List Vault) (s : String) (r0 : Rule)
    (rest : List Rule) (exclude : Int → Bool) (now : Int)
    (hp : parseRules s = .ok (r0 :: rest))
    (ht : r0.rtype = .intervalType)
    (hdel : ∀ r ∈ r0 :: rest, r.Second = .goString "delete")
    (hov : ∀ r ∈ r0 :: rest, wrap64 (now - r.First) = now - r.First) :
    (evict items s exclude now).isOk = true ∧
    (∀ v ∈ resOf (evict items s exclude now), exclude v.TimeStamp = false) ∧
    (∀ t : Int, t ∈ tsList (resOf (evict items s exclude now)) ↔
      t ∈ tsList items ∧ (∃ r ∈ r0 :: rest, t ≤ now - r.First) ∧
        exclude t = false) := by
  have hev : evict items s exclude now = .ok (uniqueVaults
      ((r0 :: rest).flatMap (fun r => (sortDescByTS items).filter
        (fun x => decide (x.TimeStamp ≤ wrap64 (now - r.First)) &&
          !exclude x.TimeStamp)))) := by
    unfold evict
    rw [hp]
    unfold evictRules
    dsimp only
    rw [ht]
    rw [intervalFold_all_delete (sortDescByTS items) exclude now (r0 :: rest) [] hdel]
    simp
  have hchar : ∀ t : Int, t ∈ tsList (resOf (evict items s exclude now)) ↔
      t ∈ tsList items ∧ (∃ r ∈ r0 :: rest, t ≤ now - r.First) ∧
        exclude t = false := by
    intro t
    rw [hev]
    show t ∈ tsList (uniqueVaults _) ↔ _
    rw [tsList_uniqueVaults]
    constructor
    · intro h
      obtain ⟨v, hv, rfl⟩ := mem_tsList.1 h
      obtain ⟨r, hr, hvf⟩ := List.mem_flatMap.1 hv
      obtain ⟨hvi, hpred⟩ := List.mem_filter.1 hvf
      simp only [Bool.and_eq_true, decide_eq_true_eq, Bool.not_eq_true'] at hpred
      refine ⟨?_, ⟨r, hr, ?_⟩, hpred.2⟩
      · exact (tsList_sortDesc _ _).1 (List.mem_map_of_mem _ hvi)
      · rw [← hov r hr]; exact hpred.1
    · rintro ⟨h1, ⟨r, hr, hrt⟩, hex⟩
      rw [← tsList_sortDesc t items] at h1
      obtain ⟨v, hv, hvt⟩ := mem_tsList.1 h1
      refine mem_tsList.2 ⟨v, List.mem_flatMap.2 ⟨r, hr, List.mem_filter.2 ⟨hv, ?_⟩⟩, hvt⟩
      simp only [Bool.and_eq_true, decide_eq_true_eq, Bool.not_eq_true']
      rw [hov r hr, hvt]
      exact ⟨hrt, hex⟩
  refine ⟨by rw [hev]; rfl, ?_, hchar⟩
  intro v hv
  exact ((hchar v.TimeStamp).1 (List.mem_map_of_mem _ hv)).2.2

lemma uniqueVaultsAux_sublist :
    ∀ (l : List Vault) (seen : List Int), List.Sublist (uniqueVaultsAux seen l) l := by
  intro l
  induction l with
  | nil => intro seen; simp [uniqueVaultsAux]
  | cons v rest ih =>
    intro seen
    by_cases hv : v.TimeStamp ∈ seen
    · rw [show uniqueVaultsAux seen (v :: rest) = uniqueVaultsAux seen rest from by
        simp [uniqueVaultsAux, hv]]
      exact (ih seen).cons v
    · rw [show uniqueVaultsAux seen (v :: rest) =
          v :: uniqueVaultsAux (v.TimeStamp :: seen) rest from by
        simp [uniqueVaultsAux, hv]]
      exact (ih _).cons₂ v

lemma nodup_tsList_uniqueVaultsAux :
    ∀ (l : List Vault) (seen : List Int), (tsList (uniqueVaultsAux seen l)).Nodup := by
  intro l
  induction l with
  | nil => intro seen; simp [uniqueVaultsAux, tsList]
  | cons v rest ih =>
    intro seen
    by_cases hv : v.TimeStamp ∈ seen
    · rw [show uniqueVaultsAux seen (v :: rest) = uniqueVaultsAux seen rest from by
        simp [uniqueVaultsAux, hv]]
      exact ih seen
    · rw [show uniqueVaultsAux seen (v :: rest) =
          v :: uniqueVaultsAux (v.TimeStamp :: seen) rest from by
        simp [uniqueVaultsAux, hv], tsList_cons]
      refine List.nodup_cons.2 ⟨?_, ih _⟩
      intro hmem
      exact ((tsList_uniqueVaultsAux _ rest _).1 hmem).2 (List.mem_cons_self _ _)

lemma pairwise_gt_unique_sorted (items : List Vault) :
    (tsList (sortDescByTS (uniqueVaults (sortDescByTS items)))).Pairwise
      (fun a b => b < a) := by
  have hsorted : List.Sorted vaultGE (sortDescByTS (uniqueVaults (sortDescByTS items))) :=
    List.sorted_insertionSort vaultGE _
  have hle : (tsList (sortDescByTS (uniqueVaults (sortDescByTS items)))).Pairwise
      (fun a b : Int => b ≤ a) := by
    unfold tsList
    exact @List.Pairwise.map Int Vault vaultGE
      (sortDescByTS (uniqueVaults (sortDescByTS items)))
      (fun a b : Int => b ≤ a) (fun v => v.TimeStamp) (fun _ _ hab => hab) hsorted
  have hnd : (tsList (sortDescByTS (uniqueVaults (sortDescByTS items)))).Nodup := by
    have h1 : (tsList (uniqueVaults (sortDescByTS items))).Nodup :=
      nodup_tsList_uniqueVaultsAux _ []
    have hperm : List.Perm (tsList (uniqueVaults (sortDescByTS items)))
        (tsList (sortDescByTS (uniqueVaults (sortDescByTS items)))) :=
      ((List.perm_insertionSort vaultGE _).map _).symm
    exact hperm.nodup h1
  exact (hle.and hnd).imp (fun hab => lt_of_le_of_ne hab.1 (Ne.symm hab.2))

lemma mem_drop_sorted_iff :
    ∀ (d : List Int), d.Pairwise (fun a b => b < a) →
      ∀ (k : Nat) (t : Int),
        t ∈ d.drop k ↔ t ∈ d ∧ k ≤ (d.filter (fun u => decide (t < u))).length := by
  intro d
  induction d with
  | nil => intro _ k t; simp
  | cons a d ih =>
    intro hp k t
    have ha : ∀ b ∈ d, b < a := (List.pairwise_cons.1 hp).1
    have hd := (List.pairwise_cons.1 hp).2
    cases k with
    | zero => simp
    | succ k =>
      rw [List.drop_succ_cons, List.filter_cons]
      by_cases hta : t < a
      · rw [if_pos (by simpa using hta)]
        rw [ih hd k t]
        simp only [List.length_cons, List.mem_cons]
        constructor
        · rintro ⟨h1, h2⟩
          exact ⟨Or.inr h1, by omega⟩
        · rintro ⟨h1 | h1, h2⟩
          · subst h1
            exact absurd hta (lt_irrefl t)
          · exact ⟨h1, by omega⟩
      · rw [if_neg (by simpa using hta)]
        rw [ih hd k t]
        constructor
        · rintro ⟨h1, _⟩
          exact absurd (ha t h1) hta
        · rintro ⟨h1, h2⟩
          rcases List.mem_cons.1 h1 with rfl | h1
          · have hfe : d.filter (fun u => decide (t < u)) = [] := by
              rw [List.filter_eq_nil_iff]
              intro b hb
              simp only [decide_eq_true_eq]
              exact fun hlt => absurd (lt_trans hlt (ha b hb)) (lt_irrefl t)
            rw [hfe] at h2
            simp at h2
          · exact absurd (ha t h1) hta

/-- C3: for a Limit-mode policy (first parsed rule of Limit type with count
First), evict succeeds, every returned vault is an input vault, a timestamp
is returned exactly when it is an input timestamp with at least First
distinct newer input timestamps (i.e. the newest First distinct timestamps
survive, duplicates counted once), and the outcome depends neither on the
exclusion set nor on the clock, so later rules and exclusions have no
effect. -/
theorem c3_limit_mode (items : List Vault) (s : String) (r : Rule) (rest : List Rule)
    (exclude : Int → Bool) (now : Int)
    (hp : parseRules s = .ok (r :: rest))
    (ht : r.rtype = .limitType)
    (hk : 0 ≤ r.First) :
    (evict items s exclude now).isOk = true ∧
    (∀ v ∈ resOf (evict items s exclude now), v ∈ items) ∧
    (∀ t : Int, t ∈ tsList (resOf (evict items s exclude now)) ↔
      t ∈ tsList items ∧
        r.First.toNat ≤
          (((tsList items).dedup).filter (fun u => decide (t < u))).length) ∧
    (∀ (exclude2 : Int → Bool) (now2 : Int),
      evict items s exclude now = evict items s exclude2 now2) := by
  have hev : ∀ (ex : Int → Bool) (n : Int), evict items s ex n =
      .ok ((sortDescByTS (uniqueVaults (sortDescByTS items))).drop r.First.toNat) := by
    intro ex n
    unfold evict
    rw [hp]
    unfold evictRules
    dsimp only
    rw [ht]
    by_cases hlt : r.First <
        ((sortDescByTS (uniqueVaults (sortDescByTS items))).length : Int)
    · rw [if_pos hlt, if_neg (by omega)]
    · rw [if_neg hlt]
      have hge : (sortDescByTS (uniqueVaults (sortDescByTS items))).length ≤
          r.First.toNat := by omega
      rw [List.drop_eq_nil_of_le hge]
  have hmemd : ∀ x : Int,
      x ∈ tsList (sortDescByTS (uniqueVaults (sortDescByTS items))) ↔
        x ∈ tsList items := by
    intro x
    rw [tsList_sortDesc, tsList_uniqueVaults, tsList_sortDesc]
  have hperm : List.Perm (tsList (sortDescByTS (uniqueVaults (sortDescByTS items))))
      ((tsList items).dedup) := by
    refine (List.perm_ext_iff_of_nodup ?_ (List.nodup_dedup _)).2 ?_
    · have h1 : (tsList (uniqueVaults (sortDescByTS items))).Nodup :=
        nodup_tsList_uniqueVaultsAux _ []
      exact (((List.perm_insertionSort vaultGE _).map _).symm).nodup h1
    · intro a
      rw [hmemd a, List.mem_dedup]
  refine ⟨by rw [hev exclude now]; rfl, ?_, ?_, ?_⟩
  · intro v hv
    rw [hev exclude now] at hv
    have hv1 : v ∈ sortDescByTS (uniqueVaults (sortDescByTS items)) :=
      (List.drop_sublist _ _).subset hv
    have hv2 : v ∈ uniqueVaults (sortDescByTS items) :=
      (List.perm_insertionSort vaultGE _).mem_iff.1 hv1
    have hv3 : v ∈ sortDescByTS items := (uniqueVaultsAux_sublist _ []).subset hv2
    exact (List.perm_insertionSort vaultGE _).mem_iff.1 hv3
  · intro t
    rw [hev exclude now]
    show t ∈ tsList (List.drop _ _) ↔ _
    rw [show tsList (List.drop r.First.toNat
        (sortDescByTS (uniqueVaults (sortDescByTS items)))) =
      (tsList (sortDescByTS (uniqueVaults (sortDescByTS items)))).drop r.First.toNat from
      List.map_drop _ _ _]
    rw [mem_drop_sorted_iff _ (pairwise_gt_unique_sorted items) _ t]
    rw [hmemd t, (hperm.filter _).length_eq]
  · intro ex2 n2
    rw [hev exclude now, hev ex2 n2]

/-- Three vaults with distinct timestamps for the retention witnesses. -/
def retItems : List Vault :=
  [{ Folder := "a", TimeStamp := 10 }, { Folder := "b", TimeStamp := 950 },
   { Folder := "c", TimeStamp := 1000 }]

/-- The parsed rule of the policy 1min/delete. -/
def retDeleteRule : Rule := ⟨.intervalType, 60, .goString "delete"⟩

/-- An exclusion set containing only timestamp 10. -/
def retExcl : Int → Bool := fun t => t = 10

/-- Witness for C2 at the concrete policy 1min/delete with now 1000. -/
theorem c2_witness :
    (evict retItems "1min/delete" retExcl 1000).isOk = true ∧
    (∀ v ∈ resOf (evict retItems "1min/delete" retExcl 1000),
      retExcl v.TimeStamp = false) ∧
    (∀ t : Int, t ∈ tsList (resOf (evict retItems "1min/delete" retExcl 1000)) ↔
      t ∈ tsList retItems ∧ (∃ r ∈ [retDeleteRule], t ≤ 1000 - r.First) ∧
        retExcl t = false) :=
  c2_interval_delete retItems "1min/delete" retDeleteRule [] retExcl 1000
    rfl rfl (by decide) (by decide)

/-- The parsed rule of the policy clause 0/delete, the only Limit-type rule
the parser can produce. -/
def retLimitRule : Rule := ⟨.limitType, 0, .goString "delete"⟩

/-- Witness for C3 at the concrete policy 0/delete. -/
theorem c3_witness :
    (evict retItems "0/delete" retExcl 77).isOk = true ∧
    (∀ v ∈ resOf (evict retItems "0/delete" retExcl 77), v ∈ retItems) ∧
    (∀ t : Int, t ∈ tsList (resOf (evict retItems "0/delete" retExcl 77)) ↔
      t ∈ tsList retItems ∧
        (0 : Int).toNat ≤
          (((tsList retItems).dedup).filter (fun u => decide (t < u))).length) ∧
    (∀ (exclude2 : Int → Bool) (now2 : Int),
      evict retItems "0/delete" retExcl 77 = evict retItems "0/delete" exclude2 now2) :=
  c3_limit_mode retItems "0/delete" retLimitRule [] retExcl 77 rfl rfl (by decide)
